import Mathlib

set_option maxHeartbeats 1000000

/-!
Verification development for the `usb-ids` crate: a build-time parser
(`build.rs`) that turns the flat `usb.ids` registry text into two id-keyed
maps, and a read-only query engine (`src/lib.rs`) over those maps.

Lines of the registry are modelled as `List Char`; the nom line parsers,
the `ParserState` machine of `build.rs::main`, the codegen step
(`CgVendor::to_tokens` / `CgClass::to_tokens`) and the phf map construction
are embedded as executable Lean functions.  Rust panics (`panic!`, `expect`)
and the fatal build abort are modelled with `Except String`.
-/

namespace UsbIds

/-- ASCII hexadecimal digit, as accepted by nom's `hex_digit1`. -/
def isHexCh (c : Char) : Bool :=
  ('0' ≤ c && c ≤ '9') || ('a' ≤ c && c ≤ 'f') || ('A' ≤ c && c ≤ 'F')

/-- Numeric value of one hexadecimal digit. -/
def hexVal (c : Char) : Nat :=
  if '0' ≤ c && c ≤ '9' then c.toNat - '0'.toNat
  else if 'a' ≤ c && c ≤ 'f' then c.toNat - 'a'.toNat + 10
  else c.toNat - 'A'.toNat + 10

/-- Value of a string of hexadecimal digits, most significant first
(`u16::from_str_radix(s, 16)` / `u8::from_str_radix(s, 16)`; 4 resp. 2
digits always fit the machine width, so no overflow can occur). -/
def hexValue (s : List Char) : Nat := s.foldl (fun a c => a * 16 + hexVal c) 0

/-- `startsWith p l` — `p` is a literal prefix of `l`
(Rust `str::starts_with`, nom `tag`). -/
def startsWith : List Char → List Char → Bool
  | [], _ => true
  | _ :: _, [] => false
  | p :: ps, c :: cs => p == c && startsWith ps cs

/-- nom `map_res(map_parser(take(size), all_consuming(hex_digit1)), from_str_radix 16)`:
take exactly `size` characters, all of which must be hex digits, and return
their value together with the rest of the line (`build.rs::parser::id`). -/
def pId (size : Nat) (s : List Char) : Option (Nat × List Char) :=
  let taken := s.take size
  if taken.length == size && size != 0 && taken.all isHexCh then
    some (hexValue taken, s.drop size)
  else none

/-- nom `tag`: expect the literal `t`, return the rest. -/
def pTag (t s : List Char) : Option (List Char) :=
  if startsWith t s then some (s.drop t.length) else none

/-- Common shape of all six line parsers in `build.rs::parser`:
a literal prefix, a fixed-width hex id, the literal `"  "`, then the name
(the unconsumed remainder).  Mirrors nom's
`delimited(prefixParser, id, tag("  "))` (for `vendor` the prefix is empty,
i.e. `terminated(id, tag("  "))`).  Returns `(name, id)` exactly as the
Rust call sites destructure `Ok((name, id))`. -/
def delimitedId (pre : List Char) (size : Nat) (l : List Char) :
    Option (List Char × Nat) :=
  match pTag pre l with
  | none => none
  | some r =>
    match pId size r with
    | none => none
    | some (i, r2) =>
      match pTag [' ', ' '] r2 with
      | none => none
      | some name => some (name, i)

namespace parser

/-- `build.rs::parser::vendor`: 4 hex digits, two spaces, name. -/
def vendor (l : List Char) : Option (List Char × Nat) := delimitedId [] 4 l

/-- `build.rs::parser::device`: one tab, 4 hex digits, two spaces, name. -/
def device (l : List Char) : Option (List Char × Nat) := delimitedId ['\t'] 4 l

/-- `build.rs::parser::interface`: two tabs, 2 hex digits, two spaces, name. -/
def interface (l : List Char) : Option (List Char × Nat) :=
  delimitedId ['\t', '\t'] 2 l

/-- `build.rs::parser::class`: literal `"C "`, 2 hex digits, two spaces, name
(`class` is a Lean keyword, hence the name `cls`). -/
def cls (l : List Char) : Option (List Char × Nat) := delimitedId ['C', ' '] 2 l

/-- `build.rs::parser::sub_class`: one tab, 2 hex digits, two spaces, name. -/
def sub_class (l : List Char) : Option (List Char × Nat) := delimitedId ['\t'] 2 l

/-- `build.rs::parser::protocol`: two tabs, 2 hex digits, two spaces, name. -/
def protocol (l : List Char) : Option (List Char × Nat) :=
  delimitedId ['\t', '\t'] 2 l

end parser

/-- `build.rs::CgInterface`. -/
structure CgInterface where
  id : Nat
  name : List Char
deriving DecidableEq, Repr

/-- `build.rs::CgDevice`. -/
structure CgDevice where
  id : Nat
  name : List Char
  interfaces : List CgInterface
deriving DecidableEq, Repr

/-- `build.rs::CgVendor`. -/
structure CgVendor where
  id : Nat
  name : List Char
  devices : List CgDevice
deriving DecidableEq, Repr

/-- `build.rs::CgProtocol`. -/
structure CgProtocol where
  id : Nat
  name : List Char
deriving DecidableEq, Repr

/-- `build.rs::CgSubClass`. -/
structure CgSubClass where
  id : Nat
  name : List Char
  protocols : List CgProtocol
deriving DecidableEq, Repr

/-- `build.rs::CgClass`. -/
structure CgClass where
  id : Nat
  name : List Char
  sub_classes : List CgSubClass
deriving DecidableEq, Repr

/-- `src/lib.rs::Interface`. -/
structure Interface where
  id : Nat
  name : List Char
deriving DecidableEq, Repr

/-- `src/lib.rs::Device`. -/
structure Device where
  vendor_id : Nat
  id : Nat
  name : List Char
  interfaces : List Interface
deriving DecidableEq, Repr

/-- `src/lib.rs::Vendor`. -/
structure Vendor where
  id : Nat
  name : List Char
  devices : List Device
deriving DecidableEq, Repr

/-- `src/lib.rs::Protocol`. -/
structure Protocol where
  id : Nat
  name : List Char
deriving DecidableEq, Repr

/-- `src/lib.rs::SubClass`. -/
structure SubClass where
  class_id : Nat
  id : Nat
  name : List Char
  protocols : List Protocol
deriving DecidableEq, Repr

/-- `src/lib.rs::Class`. -/
structure Class where
  id : Nat
  name : List Char
  sub_classes : List SubClass
deriving DecidableEq, Repr

/-- `build.rs::impl ToTokens for CgVendor`: the emitted `Vendor` literal; each
emitted `Device` gets `vendor_id` set to the owning vendor's id. -/
def cgVendorToVendor (v : CgVendor) : Vendor :=
  { id := v.id
    name := v.name
    devices := v.devices.map fun d =>
      { vendor_id := v.id
        id := d.id
        name := d.name
        interfaces := d.interfaces.map fun i => { id := i.id, name := i.name } } }

/-- `build.rs::impl ToTokens for CgClass`: the emitted `Class` literal; each
emitted `SubClass` gets `class_id` set to the owning class's id. -/
def cgClassToClass (c : CgClass) : Class :=
  { id := c.id
    name := c.name
    sub_classes := c.sub_classes.map fun s =>
      { class_id := c.id
        id := s.id
        name := s.name
        protocols := s.protocols.map fun p => { id := p.id, name := p.name } } }

/-- `build.rs::ParserState`. -/
inductive ParserState where
  | Vendors : Option CgVendor → Nat → ParserState
  | Classes : Option CgClass → Nat → ParserState
  | Types : ParserState
deriving DecidableEq, Repr

/-- `matches!(parser_state, ParserState::Classes(_, _))`. -/
def ParserState.isClasses : ParserState → Bool
  | .Classes _ _ => true
  | _ => false

/-- `matches!(parser_state, ParserState::Types)`. -/
def ParserState.isTypes : ParserState → Bool
  | .Types => true
  | _ => false

/-- The mutable state of `build.rs::main`'s parsing loop: the parser state
plus the two codegen maps (`vmap`, `cmap`), modelled as the ordered list of
`map.entry(key, value)` calls made so far, with the values already passed
through the `ToTokens` codegen. -/
structure BuildState where
  ps : ParserState
  vmap : List (Nat × Vendor)
  cmap : List (Nat × Class)
deriving DecidableEq, Repr

/-- `build.rs::emit_vendor`: `map.entry(vendor.id, codegen(vendor))`. -/
def emitVendor (m : List (Nat × Vendor)) (v : CgVendor) : List (Nat × Vendor) :=
  m ++ [(v.id, cgVendorToVendor v)]

/-- `build.rs::emit_class`: `map.entry(class.id, codegen(class))`. -/
def emitClass (m : List (Nat × Class)) (c : CgClass) : List (Nat × Class) :=
  m ++ [(c.id, cgClassToClass c)]

/-- `curr_vendor.devices.iter_mut().find(|d| d.id == *curr_device_id)` followed
by `curr_device.interfaces.push(...)`: append to the first device with the
given id, or `none` when no device matches (the `.expect(...)` panic). -/
def pushInterface : List CgDevice → Nat → CgInterface → Option (List CgDevice)
  | [], _, _ => none
  | d :: ds, target, itf =>
    if d.id = target then
      some ({ d with interfaces := d.interfaces ++ [itf] } :: ds)
    else
      match pushInterface ds target itf with
      | some ds' => some (d :: ds')
      | none => none

/-- `curr_class.sub_classes.iter_mut().find(|d| d.id == *curr_class_id)`
followed by `curr_device.protocols.push(...)`. -/
def pushProtocol : List CgSubClass → Nat → CgProtocol → Option (List CgSubClass)
  | [], _, _ => none
  | s :: ss, target, p =>
    if s.id = target then
      some ({ s with protocols := s.protocols ++ [p] } :: ss)
    else
      match pushProtocol ss target p with
      | some ss' => some (s :: ss')
      | none => none

/-- `build.rs` lines 94–99: on a `"C "` line while not in `Classes`, emit the
open vendor (if any) and switch to `Classes(None, 0u8)`. -/
def classesSwitch (st : BuildState) : BuildState :=
  match st.ps with
  | .Vendors (some v) _ =>
    { ps := .Classes none 0, vmap := emitVendor st.vmap v, cmap := st.cmap }
  | _ => { st with ps := .Classes none 0 }

/-- `build.rs` lines 101–107: on an `"AT "` line while not in `Types`, emit the
open class (if any) and switch to `Types`. -/
def typesSwitch (st : BuildState) : BuildState :=
  match st.ps with
  | .Classes (some c) _ =>
    { ps := .Types, vmap := st.vmap, cmap := emitClass st.cmap c }
  | _ => { st with ps := .Types }

/-- `build.rs` lines 110–146: the `ParserState::Vendors` arm of the line
match.  `curr` and `lastDev` are the fields of the current state. -/
def vendorsStep (st : BuildState) (curr : Option CgVendor) (lastDev : Nat)
    (l : List Char) : Except String BuildState :=
  match parser.vendor l with
  | some (nm, i) =>
    match curr with
    | some v =>
      .ok { st with ps := .Vendors (some ⟨i, nm, []⟩) lastDev
                    vmap := emitVendor st.vmap v }
    | none => .ok { st with ps := .Vendors (some ⟨i, nm, []⟩) lastDev }
  | none =>
    match curr with
    | some v =>
      match parser.device l with
      | some (nm, i) =>
        .ok { st with ps := .Vendors (some { v with devices := v.devices ++ [⟨i, nm, []⟩] }) i }
      | none =>
        match parser.interface l with
        | some (nm, i) =>
          match pushInterface v.devices lastDev ⟨i, nm⟩ with
          | some ds => .ok { st with ps := .Vendors (some { v with devices := ds }) lastDev }
          | none =>
            .error "No parent device whilst parsing interfaces, confirm file not malformed"
        | none => .ok { st with ps := .Vendors (some v) lastDev }
    | none =>
      .error "No parent vendor whilst parsing vendors, confirm file in correct order and not malformed"

/-- `build.rs` lines 148–185: the `ParserState::Classes` arm of the line
match.  `curr` and `lastCls` are the fields of the current state (the Rust
variable `curr_class_id` holds the id of the last sub-class). -/
def classesStep (st : BuildState) (curr : Option CgClass) (lastCls : Nat)
    (l : List Char) : Except String BuildState :=
  match parser.cls l with
  | some (nm, i) =>
    match curr with
    | some c =>
      .ok { st with ps := .Classes (some ⟨i, nm, []⟩) lastCls
                    cmap := emitClass st.cmap c }
    | none => .ok { st with ps := .Classes (some ⟨i, nm, []⟩) lastCls }
  | none =>
    match curr with
    | some c =>
      match parser.sub_class l with
      | some (nm, i) =>
        .ok { st with ps := .Classes (some { c with sub_classes := c.sub_classes ++ [⟨i, nm, []⟩] }) i }
      | none =>
        match parser.protocol l with
        | some (nm, i) =>
          match pushProtocol c.sub_classes lastCls ⟨i, nm⟩ with
          | some ss => .ok { st with ps := .Classes (some { c with sub_classes := ss }) lastCls }
          | none =>
            .error "No parent sub-class whilst parsing protocols, confirm file not malformed"
        | none => .ok { st with ps := .Classes (some c) lastCls }
    | none =>
      .error "No parent class whilst parsing classes, confirm file in correct order and not malformed"

/-- `build.rs` lines 94–107: the two section-switch checks performed on every
non-blank, non-comment line before the state match. -/
def switchPhase (st : BuildState) (l : List Char) : BuildState :=
  if startsWith ['C', ' '] l && !st.ps.isClasses then classesSwitch st
  else if startsWith ['A', 'T', ' '] l && !st.ps.isTypes then typesSwitch st
  else st

/-- `build.rs` lines 109–189: the `match parser_state` over the (possibly
just switched) state.  In the `Types` arm the loop body `break`s, which
`runLines` models by stopping. -/
def dispatch (st : BuildState) (l : List Char) : Except String BuildState :=
  match st.ps with
  | .Vendors curr lastDev => vendorsStep st curr lastDev l
  | .Classes curr lastCls => classesStep st curr lastCls l
  | .Types => .ok st

/-- One iteration of the `for line in input.lines()` loop of `build.rs::main`
on a single line: skip blank/comment lines, apply the section-switch checks,
then dispatch on the resulting parser state. -/
def step (st : BuildState) (l : List Char) : Except String BuildState :=
  if l.isEmpty || startsWith ['#'] l then .ok st
  else dispatch (switchPhase st l) l

/-- The whole `for` loop: process lines in order; once the state is `Types`
the loop has `break`ed, so all remaining lines are ignored. -/
def runLines (st : BuildState) : List (List Char) → Except String BuildState
  | [] => .ok st
  | l :: ls =>
    if st.ps.isTypes then .ok st
    else
      match step st l with
      | .ok st' => runLines st' ls
      | .error e => .error e

/-- `let mut parser_state = ParserState::Vendors(None, 0u16)` with both
codegen maps empty. -/
def initState : BuildState := ⟨.Vendors none 0, [], []⟩

/-- Key-distinctness check performed by `phf_codegen::Map::build`, which
panics on a duplicate key. -/
def distinctKeys : List Nat → Bool
  | [] => true
  | k :: ks => !ks.contains k && distinctKeys ks

/-- `phf_codegen::Map::build` (Catalog Compiler contract of spec §4.3): the
entries become an immutable map; duplicate keys abort the build. -/
def phfBuild {α : Type} (entries : List (Nat × α)) :
    Except String (List (Nat × α)) :=
  if distinctKeys (entries.map Prod.fst) then .ok entries else .error "duplicate key"

/-- The compiled catalog: `USB_IDS : phf::Map<u16, Vendor>` and
`USB_CLASSES : phf::Map<u8, Class>`, modelled as their entry lists. -/
structure Catalog where
  usb_ids : List (Nat × Vendor)
  usb_classes : List (Nat × Class)
deriving DecidableEq, Repr

/-- `phf::Map::get`: the value of the first (unique, after `phfBuild`) entry
with the given key. -/
def mapGet {α : Type} : List (Nat × α) → Nat → Option α
  | [], _ => none
  | (k', v) :: rest, k => if k' = k then some v else mapGet rest k

/-- The whole two-stage build of `build.rs::main`: run the parsing loop from
the initial state, then compile both phf maps.  The parser state left over at
the end of the loop is not consulted: `build.rs` emits no entity after its
`for` loop ends. -/
def build (lines : List (List Char)) : Except String Catalog :=
  match runLines initState lines with
  | .error e => .error e
  | .ok st =>
    match phfBuild st.vmap with
    | .error e => .error e
    | .ok vm =>
      match phfBuild st.cmap with
      | .error e => .error e
      | .ok cm => .ok ⟨vm, cm⟩

/-- `src/lib.rs::Vendor::from_id` (`FromId<u16> for Vendor`). -/
def Vendor.from_id (cat : Catalog) (i : Nat) : Option Vendor :=
  mapGet cat.usb_ids i

/-- `src/lib.rs::Class::from_id` (`FromId<u8> for Class`). -/
def Class.from_id (cat : Catalog) (i : Nat) : Option Class :=
  mapGet cat.usb_classes i

/-- `src/lib.rs::Device::from_vid_pid`. -/
def Device.from_vid_pid (cat : Catalog) (vid pid : Nat) : Option Device :=
  match Vendor.from_id cat vid with
  | some v => v.devices.find? (fun d => d.id == pid)
  | none => none

/-- `src/lib.rs::Device::vendor`: the map lookup `USB_IDS.get(&self.vendor_id)`
before its `.unwrap()`; the safety claim is that on catalog devices this is
always `some`. -/
def Device.vendor (cat : Catalog) (d : Device) : Option Vendor :=
  mapGet cat.usb_ids d.vendor_id

/-- `src/lib.rs::Device::as_vid_pid`. -/
def Device.as_vid_pid (d : Device) : Nat × Nat := (d.vendor_id, d.id)

/-- `src/lib.rs::SubClass::from_cid_scid`. -/
def SubClass.from_cid_scid (cat : Catalog) (cid scid : Nat) : Option SubClass :=
  match Class.from_id cat cid with
  | some c => c.sub_classes.find? (fun s => s.id == scid)
  | none => none

/-- `src/lib.rs::Protocol::from_cid_scid_pid`. -/
def Protocol.from_cid_scid_pid (cat : Catalog) (cid scid pid : Nat) :
    Option Protocol :=
  match SubClass.from_cid_scid cat cid scid with
  | some s => s.protocols.find? (fun p => p.id == pid)
  | none => none

/-- A well-formed vendor-map entry: keyed by the vendor's own id, and every
contained device back-references that id. -/
def goodVEntry (e : Nat × Vendor) : Prop :=
  e.2.id = e.1 ∧ ∀ d ∈ e.2.devices, d.vendor_id = e.1

/-- A well-formed class-map entry: keyed by the class's own id, and every
contained subclass back-references that id. -/
def goodCEntry (e : Nat × Class) : Prop :=
  e.2.id = e.1 ∧ ∀ s ∈ e.2.sub_classes, s.class_id = e.1

/-- `vext a b`: the vendor map `b` extends `a` by well-formed emitted
entries only (every change to `vmap` goes through `emitVendor`). -/
def vext (a b : List (Nat × Vendor)) : Prop :=
  ∃ news, b = a ++ news ∧ ∀ e ∈ news, goodVEntry e

/-- `cext a b`: the class map `b` extends `a` by well-formed emitted
entries only. -/
def cext (a b : List (Nat × Class)) : Prop :=
  ∃ news, b = a ++ news ∧ ∀ e ∈ news, goodCEntry e

/-- The vendor ids accounted for by a build state: the keys already emitted
into `vmap`, plus the id of the still-open vendor, if any. -/
def pendingVKeys (st : BuildState) : List Nat :=
  st.vmap.map Prod.fst ++
    (match st.ps with
     | .Vendors (some v) _ => [v.id]
     | _ => [])

/-- The class ids accounted for by a build state: the keys already emitted
into `cmap`, plus the id of the still-open class, if any. -/
def pendingCKeys (st : BuildState) : List Nat :=
  st.cmap.map Prod.fst ++
    (match st.ps with
     | .Classes (some c) _ => [c.id]
     | _ => [])

/-- Modelled from the spec: the shipped registry file `src/usb.ids` is not
part of the sources under verification, so this fragment reconstructs, from
the concrete examples of spec §8 (and the line format of spec §6), exactly
the entries the claims name: vendor `0x1d6b` with devices `0x0002`/`0x0003`
("3.0 root hub"), vendor `0xffee` with device `0x0100` ("Card Reader
Controller RTS5101/RTS5111/RTS5116", the registry's last device entry),
classes `0x03` ("Human Interface Device", subclass `0x01` "Boot Interface
Subclass" with protocol `0x01` "Keyboard"), `0x07` (printer protocol
`(0x07,0x01,0x03)` "IEEE 1284.4 compatible bidirectional") and `0xff`
(final line `(0xff,0xff,0xff)` "Vendor Specific Protocol"), followed by the
terminating audio-terminal-type section.  The spec does not give vendor
`0xffee`'s own name, so a placeholder name is used for it. -/
def specRegistry : List String :=
  [ "# usb.ids fragment, modelled from the spec",
    "",
    "1d6b  Linux Foundation",
    "\t0002  2.0 root hub",
    "\t0003  3.0 root hub",
    "ffee  Card reader vendor",
    "\t0100  Card Reader Controller RTS5101/RTS5111/RTS5116",
    "",
    "C 03  Human Interface Device",
    "\t01  Boot Interface Subclass",
    "\t\t01  Keyboard",
    "C 07  Printer",
    "\t01  Printer",
    "\t\t03  IEEE 1284.4 compatible bidirectional",
    "C ff  Vendor Specific Class",
    "\tff  Vendor Specific Subclass",
    "\t\tff  Vendor Specific Protocol",
    "",
    "AT 0100  USB Streaming" ]

/-- The spec-modelled registry fragment as parser input lines. -/
def specLines : List (List Char) := specRegistry.map String.toList

/-- The catalog built from the spec-modelled registry fragment. -/
def specCatalog : Catalog :=
  match build specLines with
  | .ok c => c
  | .error _ => ⟨[], []⟩

/-! ### Basic facts about the line parsers -/

/-- A parsed id line is nonempty and does not begin with `#`
(its first character is a hex digit, a tab, or `C`/`A`). -/
theorem delimitedId_some_ne_nil {pre : List Char} {n : Nat} {l nm : List Char}
    {i : Nat} (h : delimitedId pre n l = some (nm, i)) : l ≠ [] := by
  intro hl
  subst hl
  unfold delimitedId pTag at h
  cases pre with
  | nil =>
    simp [startsWith] at h
    unfold pId at h
    cases n with
    | zero => simp at h
    | succ m => simp [List.take] at h
  | cons p ps => simp [startsWith] at h

/-- `parser.vendor` succeeds only on lines whose first character is a
hexadecimal digit. -/
theorem vendor_some_head {l nm : List Char} {i : Nat} {c : Char} {r : List Char}
    (h : parser.vendor l = some (nm, i)) (hl : l = c :: r) : isHexCh c = true := by
  subst hl
  unfold parser.vendor delimitedId pTag at h
  simp [startsWith] at h
  unfold pId at h
  simp [List.take, List.all_cons] at h
  by_contra hc
  simp [Bool.not_eq_true] at hc
  simp [hc] at h

/-- `pId` fails when the first character is not a hex digit. -/
theorem pId_cons_none {c : Char} {r : List Char} {m : Nat}
    (hc : isHexCh c = false) : pId (m + 1) (c :: r) = none := by
  unfold pId
  simp [List.take, List.all_cons, hc]

/-- `parser.vendor` fails on device lines (leading tab). -/
theorem vendor_none_of_tab {r : List Char} :
    parser.vendor ('\t' :: r) = none := by
  unfold parser.vendor delimitedId pTag
  simp [startsWith]
  rw [show (4 : Nat) = 3 + 1 from rfl, pId_cons_none (by decide)]

/-- `parser.device` succeeds only on lines with a leading tab. -/
theorem device_some_shape {l nm : List Char} {i : Nat}
    (h : parser.device l = some (nm, i)) : ∃ r, l = '\t' :: r := by
  unfold parser.device delimitedId pTag at h
  cases l with
  | nil => simp [startsWith] at h
  | cons c cs =>
    refine ⟨cs, ?_⟩
    simp [startsWith] at h
    by_cases hc : '\t' = c
    · rw [hc]
    · simp [hc] at h

/-! ### Shape invariants of the emitted map entries -/

theorem goodV_emit (v : CgVendor) : goodVEntry (v.id, cgVendorToVendor v) := by
  constructor
  · rfl
  · intro d hd
    simp [cgVendorToVendor] at hd
    obtain ⟨d0, -, hd0⟩ := hd
    rw [← hd0]

theorem goodC_emit (c : CgClass) : goodCEntry (c.id, cgClassToClass c) := by
  constructor
  · rfl
  · intro s hs
    simp [cgClassToClass] at hs
    obtain ⟨s0, -, hs0⟩ := hs
    rw [← hs0]

theorem vext_refl (a : List (Nat × Vendor)) : vext a a :=
  ⟨[], by simp, by simp⟩

theorem cext_refl (a : List (Nat × Class)) : cext a a :=
  ⟨[], by simp, by simp⟩

theorem vext_emit (a : List (Nat × Vendor)) (v : CgVendor) :
    vext a (emitVendor a v) :=
  ⟨[(v.id, cgVendorToVendor v)], rfl, by simpa using goodV_emit v⟩

theorem cext_emit (a : List (Nat × Class)) (c : CgClass) :
    cext a (emitClass a c) :=
  ⟨[(c.id, cgClassToClass c)], rfl, by simpa using goodC_emit c⟩

theorem vext_trans {a b c : List (Nat × Vendor)} (h1 : vext a b)
    (h2 : vext b c) : vext a c := by
  obtain ⟨n1, rfl, g1⟩ := h1
  obtain ⟨n2, rfl, g2⟩ := h2
  refine ⟨n1 ++ n2, by simp, ?_⟩
  intro e he
  rcases List.mem_append.1 he with h | h
  · exact g1 e h
  · exact g2 e h

theorem cext_trans {a b c : List (Nat × Class)} (h1 : cext a b)
    (h2 : cext b c) : cext a c := by
  obtain ⟨n1, rfl, g1⟩ := h1
  obtain ⟨n2, rfl, g2⟩ := h2
  refine ⟨n1 ++ n2, by simp, ?_⟩
  intro e he
  rcases List.mem_append.1 he with h | h
  · exact g1 e h
  · exact g2 e h

theorem vext_keys {a b : List (Nat × Vendor)} (h : vext a b) {k : Nat}
    (hk : k ∈ a.map Prod.fst) : k ∈ b.map Prod.fst := by
  obtain ⟨news, rfl, -⟩ := h
  simp only [List.map_append, List.mem_append]
  exact Or.inl hk

theorem cext_keys {a b : List (Nat × Class)} (h : cext a b) {k : Nat}
    (hk : k ∈ a.map Prod.fst) : k ∈ b.map Prod.fst := by
  obtain ⟨news, rfl, -⟩ := h
  simp only [List.map_append, List.mem_append]
  exact Or.inl hk

theorem vext_mem {a b : List (Nat × Vendor)} (h : vext a b)
    {e : Nat × Vendor} (he : e ∈ b) : e ∈ a ∨ goodVEntry e := by
  obtain ⟨news, rfl, g⟩ := h
  rcases List.mem_append.1 he with h' | h'
  · exact Or.inl h'
  · exact Or.inr (g e h')

theorem cext_mem {a b : List (Nat × Class)} (h : cext a b)
    {e : Nat × Class} (he : e ∈ b) : e ∈ a ∨ goodCEntry e := by
  obtain ⟨news, rfl, g⟩ := h
  rcases List.mem_append.1 he with h' | h'
  · exact Or.inl h'
  · exact Or.inr (g e h')

/-! ### How each phase of the loop body changes the two maps -/

theorem classesSwitch_maps (st : BuildState) :
    vext st.vmap (classesSwitch st).vmap ∧ (classesSwitch st).cmap = st.cmap := by
  unfold classesSwitch
  rcases st with ⟨ps, vm, cm⟩
  cases ps with
  | Vendors o n =>
    cases o with
    | none => exact ⟨vext_refl _, rfl⟩
    | some v => exact ⟨vext_emit _ _, rfl⟩
  | Classes o n => exact ⟨vext_refl _, rfl⟩
  | Types => exact ⟨vext_refl _, rfl⟩

theorem typesSwitch_maps (st : BuildState) :
    (typesSwitch st).vmap = st.vmap ∧ cext st.cmap (typesSwitch st).cmap := by
  unfold typesSwitch
  rcases st with ⟨ps, vm, cm⟩
  cases ps with
  | Vendors o n => exact ⟨rfl, cext_refl _⟩
  | Classes o n =>
    cases o with
    | none => exact ⟨rfl, cext_refl _⟩
    | some c => exact ⟨rfl, cext_emit _ _⟩
  | Types => exact ⟨rfl, cext_refl _⟩

theorem switchPhase_maps (st : BuildState) (l : List Char) :
    vext st.vmap (switchPhase st l).vmap ∧ cext st.cmap (switchPhase st l).cmap := by
  unfold switchPhase
  split
  · exact ⟨(classesSwitch_maps st).1, (classesSwitch_maps st).2 ▸ cext_refl _⟩
  · split
    · exact ⟨(typesSwitch_maps st).1 ▸ vext_refl _, (typesSwitch_maps st).2⟩
    · exact ⟨vext_refl _, cext_refl _⟩

theorem vendorsStep_maps {st : BuildState} {curr : Option CgVendor}
    {lastDev : Nat} {l : List Char} {st' : BuildState}
    (h : vendorsStep st curr lastDev l = .ok st') :
    vext st.vmap st'.vmap ∧ st'.cmap = st.cmap := by
  unfold vendorsStep at h
  repeat any_goals split at h
  all_goals cases h
  all_goals first
    | exact ⟨vext_emit _ _, rfl⟩
    | exact ⟨vext_refl _, rfl⟩

theorem classesStep_maps {st : BuildState} {curr : Option CgClass}
    {lastCls : Nat} {l : List Char} {st' : BuildState}
    (h : classesStep st curr lastCls l = .ok st') :
    st'.vmap = st.vmap ∧ cext st.cmap st'.cmap := by
  unfold classesStep at h
  repeat any_goals split at h
  all_goals cases h
  all_goals first
    | exact ⟨rfl, cext_emit _ _⟩
    | exact ⟨rfl, cext_refl _⟩

theorem dispatch_maps {st : BuildState} {l : List Char} {st' : BuildState}
    (h : dispatch st l = .ok st') :
    vext st.vmap st'.vmap ∧ cext st.cmap st'.cmap := by
  unfold dispatch at h
  split at h
  · exact ⟨(vendorsStep_maps h).1, (vendorsStep_maps h).2 ▸ cext_refl _⟩
  · exact ⟨(classesStep_maps h).1 ▸ vext_refl _, (classesStep_maps h).2⟩
  · cases h; exact ⟨vext_refl _, cext_refl _⟩

theorem step_maps {st : BuildState} {l : List Char} {st' : BuildState}
    (h : step st l = .ok st') :
    vext st.vmap st'.vmap ∧ cext st.cmap st'.cmap := by
  unfold step at h
  split at h
  · cases h; exact ⟨vext_refl _, cext_refl _⟩
  · have hsw := switchPhase_maps st l
    have hd := dispatch_maps h
    exact ⟨vext_trans hsw.1 hd.1, cext_trans hsw.2 hd.2⟩

/-! ### Facts about the parsing loop -/

theorem runLines_of_isTypes {st : BuildState} (h : st.ps.isTypes = true)
    (ls : List (List Char)) : runLines st ls = .ok st := by
  cases ls with
  | nil => rfl
  | cons l ls => simp [runLines, h]

theorem runLines_append {xs ys : List (List Char)} {st st' : BuildState}
    (h : runLines st xs = .ok st') :
    runLines st (xs ++ ys) = runLines st' ys := by
  induction xs generalizing st with
  | nil =>
    simp [runLines] at h
    rw [List.nil_append, h]
  | cons l xs ih =>
    by_cases hT : st.ps.isTypes
    · rw [runLines_of_isTypes hT] at h
      cases h
      rw [List.cons_append, runLines_of_isTypes hT, runLines_of_isTypes hT]
    · simp only [Bool.not_eq_true] at hT
      simp only [runLines, hT, Bool.false_eq_true, if_false, List.cons_append] at h ⊢
      cases hstep : step st l with
      | ok st1 => rw [hstep] at h; exact ih h
      | error e => rw [hstep] at h; cases h

theorem runLines_split {xs ys : List (List Char)} {st f : BuildState}
    (h : runLines st (xs ++ ys) = .ok f) :
    ∃ mid, runLines st xs = .ok mid ∧ runLines mid ys = .ok f := by
  induction xs generalizing st with
  | nil => exact ⟨st, rfl, h⟩
  | cons l xs ih =>
    by_cases hT : st.ps.isTypes
    · rw [List.cons_append, runLines_of_isTypes hT] at h
      cases h
      exact ⟨_, runLines_of_isTypes hT _, runLines_of_isTypes hT _⟩
    · simp only [Bool.not_eq_true] at hT
      simp only [runLines, hT, Bool.false_eq_true, if_false, List.cons_append] at h ⊢
      cases hstep : step st l with
      | ok st1 => rw [hstep] at h; exact ih h
      | error e => rw [hstep] at h; cases h

theorem runLines_maps {ls : List (List Char)} {st st' : BuildState}
    (h : runLines st ls = .ok st') :
    vext st.vmap st'.vmap ∧ cext st.cmap st'.cmap := by
  induction ls generalizing st with
  | nil =>
    simp [runLines] at h
    rw [h]
    exact ⟨vext_refl _, cext_refl _⟩
  | cons l ls ih =>
    by_cases hT : st.ps.isTypes
    · rw [runLines_of_isTypes hT] at h
      cases h
      exact ⟨vext_refl _, cext_refl _⟩
    · simp only [Bool.not_eq_true] at hT
      simp only [runLines, hT, Bool.false_eq_true, if_false] at h
      cases hstep : step st l with
      | ok st1 =>
        rw [hstep] at h
        have h1 := step_maps hstep
        have h2 := ih h
        exact ⟨vext_trans h1.1 h2.1, cext_trans h1.2 h2.2⟩
      | error e => rw [hstep] at h; cases h

/-! ### Facts about the compiled maps -/

theorem mapGet_mem {α : Type} {m : List (Nat × α)} {k : Nat} {v : α}
    (h : mapGet m k = some v) : (k, v) ∈ m := by
  induction m with
  | nil => cases h
  | cons e rest ih =>
    rcases e with ⟨k', v'⟩
    unfold mapGet at h
    split at h
    · cases h
      simp_all
    · simp [ih h]

theorem mapGet_isSome_of_key {α : Type} {m : List (Nat × α)} {k : Nat}
    (h : k ∈ m.map Prod.fst) : ∃ v, mapGet m k = some v := by
  induction m with
  | nil => simp at h
  | cons e rest ih =>
    rcases e with ⟨k', v'⟩
    unfold mapGet
    split
    · exact ⟨v', rfl⟩
    · rename_i hne
      simp at h
      rcases h with h | h
      · exact absurd h.symm hne
      · exact ih (by simpa using h)

theorem phfBuild_ok {α : Type} {entries out : List (Nat × α)}
    (h : phfBuild entries = .ok out) : out = entries := by
  unfold phfBuild at h
  split at h
  · cases h; rfl
  · cases h

/-- Unfolding a successful `build`: the catalog's maps are exactly the entry
lists accumulated by the parsing loop; the parser state still open at the end
of the input contributes nothing. -/
theorem build_ok_decomp {lines : List (List Char)} {cat : Catalog}
    (h : build lines = .ok cat) :
    ∃ st, runLines initState lines = .ok st ∧
      cat.usb_ids = st.vmap ∧ cat.usb_classes = st.cmap := by
  unfold build at h
  split at h
  · cases h
  · rename_i st hrun
    refine ⟨st, hrun, ?_⟩
    split at h
    · cases h
    · rename_i vm hv
      split at h
      · cases h
      · rename_i cm hc
        cases h
        exact ⟨phfBuild_ok hv, phfBuild_ok hc⟩

/-- Every entry of a successfully built vendor map is well formed. -/
theorem catalog_goodV {lines : List (List Char)} {cat : Catalog}
    (h : build lines = .ok cat) : ∀ e ∈ cat.usb_ids, goodVEntry e := by
  obtain ⟨st, hrun, hv, -⟩ := build_ok_decomp h
  intro e he
  rw [hv] at he
  have := (runLines_maps hrun).1
  rcases vext_mem this he with h' | h'
  · simp [initState] at h'
  · exact h'

/-- Every entry of a successfully built class map is well formed. -/
theorem catalog_goodC {lines : List (List Char)} {cat : Catalog}
    (h : build lines = .ok cat) : ∀ e ∈ cat.usb_classes, goodCEntry e := by
  obtain ⟨st, hrun, -, hc⟩ := build_ok_decomp h
  intro e he
  rw [hc] at he
  have := (runLines_maps hrun).2
  rcases cext_mem this he with h' | h'
  · simp [initState] at h'
  · exact h'

theorem startsWith_eq_append {p l : List Char} (h : startsWith p l = true) :
    ∃ r, l = p ++ r := by
  induction p generalizing l with
  | nil => exact ⟨l, rfl⟩
  | cons a p ih =>
    cases l with
    | nil => simp [startsWith] at h
    | cons c cs =>
      simp only [startsWith, Bool.and_eq_true, beq_iff_eq] at h
      obtain ⟨rfl, h2⟩ := h
      obtain ⟨r, rfl⟩ := ih h2
      exact ⟨r, rfl⟩

theorem typesSwitch_ps (st : BuildState) : (typesSwitch st).ps = .Types := by
  unfold typesSwitch
  rcases st with ⟨ps, vm, cm⟩
  cases ps with
  | Vendors o n => rfl
  | Classes o n => cases o <;> rfl
  | Types => rfl

/-- `find?` on an id-keyed predicate recovers a member exactly when the ids
are duplicate-free. -/
theorem find?_id_unique {l : List Device} {d : Device}
    (hmem : d ∈ l) (huniq : (l.map Device.id).Nodup) :
    l.find? (fun x => x.id == d.id) = some d := by
  induction l with
  | nil => cases hmem
  | cons a l ih =>
    by_cases ha : a.id = d.id
    · have had : a = d := by
        rcases List.mem_cons.1 hmem with rfl | hm
        · rfl
        · exfalso
          have hdm : d.id ∈ l.map Device.id := List.mem_map_of_mem _ hm
          rw [← ha] at hdm
          exact (List.nodup_cons.1 huniq).1 hdm
      subst had
      simp [List.find?]
    · have hne : (a.id == d.id) = false := by simpa using ha
      have hm : d ∈ l := by
        rcases List.mem_cons.1 hmem with rfl | hm
        · exact absurd rfl ha
        · exact hm
      simp only [List.find?, hne]
      exact ih hm (List.nodup_cons.1 huniq).2

/-- A parsed class-header line begins with the literal `"C "`. -/
theorem cls_some_shape {l nm : List Char} {i : Nat}
    (h : parser.cls l = some (nm, i)) : ∃ r, l = 'C' :: ' ' :: r := by
  by_cases hs : startsWith ['C', ' '] l = true
  · obtain ⟨r, hr⟩ := startsWith_eq_append hs
    exact ⟨r, hr⟩
  · exfalso
    unfold parser.cls delimitedId pTag at h
    rw [Bool.not_eq_true] at hs
    rw [hs] at h
    simp at h

theorem dispatch_types {st : BuildState} (l : List Char) (h : st.ps = .Types) :
    dispatch st l = .ok st := by
  unfold dispatch
  rw [h]

/-- Effect of the `Vendors` arm on the accounted vendor ids: the state stays
in the `Vendors` section, no accounted id is lost, and the id of a parsed
vendor line becomes accounted. -/
theorem vendorsStep_pending {vm : List (Nat × Vendor)} {cm : List (Nat × Class)}
    {cur : Option CgVendor} {dev : Nat} {l : List Char} {st' : BuildState}
    (h : vendorsStep ⟨.Vendors cur dev, vm, cm⟩ cur dev l = .ok st') :
    (∃ cur' dev', st'.ps = .Vendors cur' dev') ∧
    (∀ k, k ∈ pendingVKeys ⟨.Vendors cur dev, vm, cm⟩ → k ∈ pendingVKeys st') ∧
    (∀ nm i, parser.vendor l = some (nm, i) → i ∈ pendingVKeys st') := by
  unfold vendorsStep at h
  repeat any_goals split at h
  all_goals cases h
  all_goals simp only [pendingVKeys, emitVendor]
  all_goals refine ⟨⟨_, _, rfl⟩, ?_, ?_⟩
  all_goals try (intro k hk; simp only [List.map_append, List.mem_append] at hk ⊢; tauto)
  all_goals intro nm i hvi
  all_goals simp_all

/-- Lifts `vendorsStep_pending` over a whole loop iteration on a line with
neither section-switch prefix. -/
theorem step_vendors_pending {st : BuildState} {cur : Option CgVendor} {dev : Nat}
    {l : List Char} {st' : BuildState}
    (hps : st.ps = .Vendors cur dev)
    (hC : startsWith ['C', ' '] l = false) (hA : startsWith ['A', 'T', ' '] l = false)
    (h : step st l = .ok st') :
    (∃ cur' dev', st'.ps = .Vendors cur' dev') ∧
    (∀ k, k ∈ pendingVKeys st → k ∈ pendingVKeys st') ∧
    (∀ nm i, parser.vendor l = some (nm, i) → i ∈ pendingVKeys st') := by
  rcases st with ⟨ps, vm, cm⟩
  cases hps
  unfold step at h
  by_cases hsk : (l.isEmpty || startsWith ['#'] l) = true
  · rw [if_pos hsk] at h
    cases h
    refine ⟨⟨_, _, rfl⟩, fun k hk => hk, ?_⟩
    intro nm i hvi
    exfalso
    rcases (Bool.or_eq_true _ _).mp hsk with he | hh
    · cases l with
      | nil => cases hvi
      | cons c cs => simp [List.isEmpty] at he
    · obtain ⟨r, rfl⟩ := startsWith_eq_append hh
      exact absurd (vendor_some_head hvi rfl) (by decide)
  · rw [if_neg hsk] at h
    have hsw : switchPhase ⟨.Vendors cur dev, vm, cm⟩ l = ⟨.Vendors cur dev, vm, cm⟩ := by
      unfold switchPhase
      rw [hC, hA]
      simp
    rw [hsw] at h
    unfold dispatch at h
    exact vendorsStep_pending h

/-- Over a run of switch-free lines the parser stays in the `Vendors`
section and every vendor-line id becomes accounted. -/
theorem runLines_vendors_pending {vs : List (List Char)} {st st' : BuildState}
    {cur : Option CgVendor} {dev : Nat}
    (hps : st.ps = .Vendors cur dev)
    (hvs : ∀ l ∈ vs, startsWith ['C', ' '] l = false ∧ startsWith ['A', 'T', ' '] l = false)
    (h : runLines st vs = .ok st') :
    (∃ cur' dev', st'.ps = .Vendors cur' dev') ∧
    (∀ k, k ∈ pendingVKeys st → k ∈ pendingVKeys st') ∧
    (∀ l ∈ vs, ∀ nm i, parser.vendor l = some (nm, i) → i ∈ pendingVKeys st') := by
  induction vs generalizing st cur dev with
  | nil =>
    simp only [runLines] at h
    cases h
    exact ⟨⟨cur, dev, hps⟩, fun k hk => hk, by simp⟩
  | cons l ls ih =>
    have hT : st.ps.isTypes = false := by rw [hps]; rfl
    simp only [runLines, hT, Bool.false_eq_true, if_false] at h
    cases hstep : step st l with
    | error e => rw [hstep] at h; cases h
    | ok st1 =>
      rw [hstep] at h
      obtain ⟨⟨cur1, dev1, hps1⟩, hmono, hnew⟩ :=
        step_vendors_pending hps (hvs l (List.mem_cons_self l ls)).1
          (hvs l (List.mem_cons_self l ls)).2 hstep
      obtain ⟨hps', hmono', hnew'⟩ :=
        ih hps1 (fun x hx => hvs x (List.mem_cons_of_mem l hx)) h
      refine ⟨hps', fun k hk => hmono' k (hmono k hk), ?_⟩
      intro l' hl' nm i hvi
      rcases List.mem_cons.1 hl' with rfl | hl'
      · exact hmono' _ (hnew nm i hvi)
      · exact hnew' l' hl' nm i hvi

/-- The section switch on the first class-header line: every accounted
vendor id has been emitted into the vendor map, the state enters `Classes`,
and the id of the (necessarily parsed) class header becomes accounted. -/
theorem step_vendors_to_classes {st : BuildState} {cur : Option CgVendor} {dev : Nat}
    {l : List Char} {st' : BuildState}
    (hps : st.ps = .Vendors cur dev) (hC : startsWith ['C', ' '] l = true)
    (h : step st l = .ok st') :
    (∀ k, k ∈ pendingVKeys st → k ∈ st'.vmap.map Prod.fst) ∧
    (∃ cur' cid, st'.ps = .Classes cur' cid) ∧
    st'.cmap = st.cmap ∧
    (∀ nm i, parser.cls l = some (nm, i) → i ∈ pendingCKeys st') := by
  rcases st with ⟨ps, vm, cm⟩
  cases hps
  obtain ⟨r, rfl⟩ := startsWith_eq_append hC
  unfold step at h
  have hskip : ((['C', ' '] ++ r).isEmpty || startsWith ['#'] (['C', ' '] ++ r)) = false := by
    simp [startsWith]
  rw [hskip] at h
  simp only [Bool.false_eq_true, if_false] at h
  have hsw : switchPhase ⟨.Vendors cur dev, vm, cm⟩ (['C', ' '] ++ r)
      = classesSwitch ⟨.Vendors cur dev, vm, cm⟩ := by
    unfold switchPhase
    rw [hC]
    simp [ParserState.isClasses]
  rw [hsw] at h
  unfold classesSwitch at h
  cases cur with
  | none =>
    unfold dispatch classesStep at h
    cases hcls : parser.cls (['C', ' '] ++ r) with
    | none => rw [hcls] at h; cases h
    | some p =>
      rcases p with ⟨nm0, i0⟩
      rw [hcls] at h
      cases h
      refine ⟨?_, ⟨_, _, rfl⟩, rfl, ?_⟩
      · intro k hk
        simpa [pendingVKeys] using hk
      · intro nm i hvi
        cases Option.some.inj hvi
        simp [pendingCKeys]
  | some v =>
    unfold dispatch classesStep at h
    cases hcls : parser.cls (['C', ' '] ++ r) with
    | none => rw [hcls] at h; cases h
    | some p =>
      rcases p with ⟨nm0, i0⟩
      rw [hcls] at h
      cases h
      refine ⟨?_, ⟨_, _, rfl⟩, rfl, ?_⟩
      · intro k hk
        simp only [pendingVKeys, emitVendor] at hk ⊢
        simp only [List.map_append, List.mem_append] at hk ⊢
        simpa using hk
      · intro nm i hvi
        cases Option.some.inj hvi
        simp [pendingCKeys]

/-- Effect of the `Classes` arm on the accounted class ids; mirror of
`vendorsStep_pending`. -/
theorem classesStep_pending {vm : List (Nat × Vendor)} {cm : List (Nat × Class)}
    {cur : Option CgClass} {cid : Nat} {l : List Char} {st' : BuildState}
    (h : classesStep ⟨.Classes cur cid, vm, cm⟩ cur cid l = .ok st') :
    (∃ cur' cid', st'.ps = .Classes cur' cid') ∧
    (∀ k, k ∈ pendingCKeys ⟨.Classes cur cid, vm, cm⟩ → k ∈ pendingCKeys st') ∧
    (∀ nm i, parser.cls l = some (nm, i) → i ∈ pendingCKeys st') := by
  unfold classesStep at h
  repeat any_goals split at h
  all_goals cases h
  all_goals simp only [pendingCKeys, emitClass]
  all_goals refine ⟨⟨_, _, rfl⟩, ?_, ?_⟩
  all_goals try (intro k hk; simp only [List.map_append, List.mem_append] at hk ⊢; tauto)
  all_goals intro nm i hvi
  all_goals simp_all

theorem step_classes_pending {st : BuildState} {cur : Option CgClass} {cid : Nat}
    {l : List Char} {st' : BuildState}
    (hps : st.ps = .Classes cur cid)
    (hA : startsWith ['A', 'T', ' '] l = false)
    (h : step st l = .ok st') :
    (∃ cur' cid', st'.ps = .Classes cur' cid') ∧
    (∀ k, k ∈ pendingCKeys st → k ∈ pendingCKeys st') ∧
    (∀ nm i, parser.cls l = some (nm, i) → i ∈ pendingCKeys st') := by
  rcases st with ⟨ps, vm, cm⟩
  cases hps
  unfold step at h
  by_cases hsk : (l.isEmpty || startsWith ['#'] l) = true
  · rw [if_pos hsk] at h
    cases h
    refine ⟨⟨_, _, rfl⟩, fun k hk => hk, ?_⟩
    intro nm i hvi
    exfalso
    obtain ⟨r, rfl⟩ := cls_some_shape hvi
    simp [startsWith, List.isEmpty] at hsk
  · rw [if_neg hsk] at h
    have hsw : switchPhase ⟨.Classes cur cid, vm, cm⟩ l = ⟨.Classes cur cid, vm, cm⟩ := by
      unfold switchPhase
      rw [hA]
      simp [ParserState.isClasses]
    rw [hsw] at h
    unfold dispatch at h
    exact classesStep_pending h

/-- Over a run of marker-free lines the parser stays in the `Classes`
section and every class-header id becomes accounted. -/
theorem runLines_classes_pending {cs : List (List Char)} {st st' : BuildState}
    {cur : Option CgClass} {cid : Nat}
    (hps : st.ps = .Classes cur cid)
    (hcs : ∀ l ∈ cs, startsWith ['A', 'T', ' '] l = false)
    (h : runLines st cs = .ok st') :
    (∃ cur' cid', st'.ps = .Classes cur' cid') ∧
    (∀ k, k ∈ pendingCKeys st → k ∈ pendingCKeys st') ∧
    (∀ l ∈ cs, ∀ nm i, parser.cls l = some (nm, i) → i ∈ pendingCKeys st') := by
  induction cs generalizing st cur cid with
  | nil =>
    simp only [runLines] at h
    cases h
    exact ⟨⟨cur, cid, hps⟩, fun k hk => hk, by simp⟩
  | cons l ls ih =>
    have hT : st.ps.isTypes = false := by rw [hps]; rfl
    simp only [runLines, hT, Bool.false_eq_true, if_false] at h
    cases hstep : step st l with
    | error e => rw [hstep] at h; cases h
    | ok st1 =>
      rw [hstep] at h
      obtain ⟨⟨cur1, cid1, hps1⟩, hmono, hnew⟩ :=
        step_classes_pending hps (hcs l (List.mem_cons_self l ls)) hstep
      obtain ⟨hps', hmono', hnew'⟩ :=
        ih hps1 (fun x hx => hcs x (List.mem_cons_of_mem l hx)) h
      refine ⟨hps', fun k hk => hmono' k (hmono k hk), ?_⟩
      intro l' hl' nm i hvi
      rcases List.mem_cons.1 hl' with rfl | hl'
      · exact hmono' _ (hnew nm i hvi)
      · exact hnew' l' hl' nm i hvi

/-- The switch on a type-section marker emits every accounted class id into
the class map. -/
theorem step_classes_to_types {st : BuildState} {cur : Option CgClass} {cid : Nat}
    {l : List Char} {st' : BuildState}
    (hps : st.ps = .Classes cur cid) (hA : startsWith ['A', 'T', ' '] l = true)
    (h : step st l = .ok st') :
    ∀ k, k ∈ pendingCKeys st → k ∈ st'.cmap.map Prod.fst := by
  rcases st with ⟨ps, vm, cm⟩
  cases hps
  obtain ⟨r, rfl⟩ := startsWith_eq_append hA
  unfold step at h
  have hskip : ((['A', 'T', ' '] ++ r).isEmpty
      || startsWith ['#'] (['A', 'T', ' '] ++ r)) = false := by
    simp [startsWith]
  rw [hskip] at h
  simp only [Bool.false_eq_true, if_false] at h
  have hsw : switchPhase ⟨.Classes cur cid, vm, cm⟩ (['A', 'T', ' '] ++ r)
      = typesSwitch ⟨.Classes cur cid, vm, cm⟩ := by
    unfold switchPhase
    have hC : startsWith ['C', ' '] (['A', 'T', ' '] ++ r) = false := by
      simp [startsWith]
    rw [hC, hA]
    simp [ParserState.isClasses, ParserState.isTypes]
  rw [hsw] at h
  rw [dispatch_types _ (typesSwitch_ps _)] at h
  cases h
  intro k hk
  cases cur with
  | some c =>
    simp only [pendingCKeys, typesSwitch, emitClass] at hk ⊢
    simp only [List.map_append, List.mem_append] at hk ⊢
    simpa using hk
  | none =>
    simp only [pendingCKeys, typesSwitch] at hk ⊢
    simpa using hk


/-! ### The claims -/

/-- **C1**, counterexample.  The claim states that a vendor or class still
open when the input text ends is flushed into the catalog.  It is not: an
input consisting of a single well-formed vendor line builds successfully
into a catalog with an empty vendor map, and looking up that vendor's id
finds nothing. -/
theorem C1_counterexample :
    build [String.toList "1d6b  Linux Foundation"] = .ok ⟨[], []⟩ ∧
    Vendor.from_id ⟨[], []⟩ 0x1d6b = none :=
  ⟨rfl, rfl⟩

/-- **C1**, amended.  At end of input nothing is flushed: a successful build
returns exactly the entries emitted while processing lines (a vendor is
emitted only by a later vendor line or a class-section header, a class only
by a later class header or a type-section marker); whatever vendor or class
the final parser state still holds open is not consulted and is absent from
the catalog unless it was separately emitted. -/
theorem C1_amended_eof_no_flush {lines : List (List Char)} {st : BuildState}
    {cat : Catalog} (hrun : runLines initState lines = .ok st)
    (hb : build lines = .ok cat) :
    cat.usb_ids = st.vmap ∧ cat.usb_classes = st.cmap := by
  obtain ⟨st2, hrun2, h1, h2⟩ := build_ok_decomp hb
  rw [hrun] at hrun2
  cases hrun2
  exact ⟨h1, h2⟩

/-- Witness for C1: the single-vendor-line input, evaluated concretely. -/
theorem C1_witness :
    (Catalog.mk [] []).usb_ids =
      (BuildState.mk
        (.Vendors (some (CgVendor.mk 0x1d6b (String.toList "Linux Foundation") [])) 0)
        [] []).vmap ∧
    (Catalog.mk [] []).usb_classes =
      (BuildState.mk
        (.Vendors (some (CgVendor.mk 0x1d6b (String.toList "Linux Foundation") [])) 0)
        [] []).cmap :=
  @C1_amended_eof_no_flush [String.toList "1d6b  Linux Foundation"]
    (BuildState.mk
      (.Vendors (some (CgVendor.mk 0x1d6b (String.toList "Linux Foundation") [])) 0)
      [] [])
    (Catalog.mk [] []) (by rfl) (by rfl)

/-- **C2**.  Whenever a device line (one leading tab, 4 hex digits, two
spaces, name) is reached while the parser is in the `Vendors` state with no
vendor open, the whole build aborts with the fatal no-parent-vendor error
and no catalog is produced — for any input decomposing as
`pre ++ deviceLine :: post`. -/
theorem C2_orphan_device_aborts {pre post : List (List Char)} {l : List Char}
    {st : BuildState} {lastDev : Nat} {nm : List Char} {i : Nat}
    (hpre : runLines initState pre = .ok st)
    (hst : st.ps = .Vendors none lastDev)
    (hdev : parser.device l = some (nm, i)) :
    ∃ e, build (pre ++ l :: post) = .error e := by
  obtain ⟨r, rfl⟩ := device_some_shape hdev
  have hstep : step st ('\t' :: r) = .error
      "No parent vendor whilst parsing vendors, confirm file in correct order and not malformed" := by
    unfold step
    have hskip : (('\t' :: r).isEmpty || startsWith ['#'] ('\t' :: r)) = false := by
      simp [startsWith]
    rw [hskip]
    simp only [Bool.false_eq_true, if_false]
    have hsw : switchPhase st ('\t' :: r) = st := by
      unfold switchPhase
      simp [startsWith]
    rw [hsw]
    unfold dispatch
    rw [hst]
    unfold vendorsStep
    rw [vendor_none_of_tab]
  have hT : st.ps.isTypes = false := by rw [hst]; rfl
  have hrun : runLines initState (pre ++ ('\t' :: r) :: post) = .error
      "No parent vendor whilst parsing vendors, confirm file in correct order and not malformed" := by
    rw [runLines_append hpre]
    simp [runLines, hT, hstep]
  refine ⟨"No parent vendor whilst parsing vendors, confirm file in correct order and not malformed", ?_⟩
  unfold build
  rw [hrun]

/-- Witness for C2: a device line as the very first line of the input. -/
theorem C2_witness :
    ∃ e, build ([] ++ String.toList "\t0003  3.0 root hub" :: []) = .error e :=
  @C2_orphan_device_aborts [] [] (String.toList "\t0003  3.0 root hub")
    initState 0 (String.toList "3.0 root hub") 0x0003 (by rfl) (by rfl) (by rfl)

/-- **C3**, counterexample.  The claim states that a line matching no
recognized shape is skipped without aborting `regardless of whether a vendor
or class is currently open`.  False: in the initial state (no vendor open)
the unrecognized line "xyz" aborts the whole build. -/
theorem C3_counterexample :
    ∃ e, build [String.toList "xyz"] = .error e :=
  ⟨"No parent vendor whilst parsing vendors, confirm file in correct order and not malformed", rfl⟩

/-- **C3**, amended.  A non-blank, non-comment, non-section-switch line that
matches none of the active section's recognized shapes is silently skipped —
parser state and both maps unchanged, no abort — whenever a parent entity
(vendor resp. class) is open; but when no parent is open in the active
section, any such line aborts the build with the fatal no-parent error. -/
theorem C3_amended_skip_or_abort :
    (∀ (st : BuildState) (v : CgVendor) (lastDev : Nat) (l : List Char),
      st.ps = .Vendors (some v) lastDev →
      l ≠ [] → startsWith ['#'] l = false →
      startsWith ['C', ' '] l = false → startsWith ['A', 'T', ' '] l = false →
      parser.vendor l = none → parser.device l = none → parser.interface l = none →
      step st l = .ok st) ∧
    (∀ (st : BuildState) (c : CgClass) (lastCls : Nat) (l : List Char),
      st.ps = .Classes (some c) lastCls →
      l ≠ [] → startsWith ['#'] l = false →
      startsWith ['C', ' '] l = false → startsWith ['A', 'T', ' '] l = false →
      parser.cls l = none → parser.sub_class l = none → parser.protocol l = none →
      step st l = .ok st) ∧
    (∀ (st : BuildState) (lastDev : Nat) (l : List Char),
      st.ps = .Vendors none lastDev →
      l ≠ [] → startsWith ['#'] l = false →
      startsWith ['C', ' '] l = false → startsWith ['A', 'T', ' '] l = false →
      parser.vendor l = none →
      ∃ e, step st l = .error e) ∧
    (∀ (st : BuildState) (lastCls : Nat) (l : List Char),
      st.ps = .Classes none lastCls →
      l ≠ [] → startsWith ['#'] l = false →
      startsWith ['C', ' '] l = false → startsWith ['A', 'T', ' '] l = false →
      parser.cls l = none →
      ∃ e, step st l = .error e) := by
  have hskip : ∀ (l : List Char), l ≠ [] → startsWith ['#'] l = false →
      (l.isEmpty || startsWith ['#'] l) = false := by
    intro l hne hH
    cases l with
    | nil => exact absurd rfl hne
    | cons c cs => simp [hH]
  refine ⟨?_, ?_, ?_, ?_⟩
  · intro st v lastDev l hst hne hH hC hA hv hd hi
    rcases st with ⟨ps, vm, cm⟩
    cases hst
    unfold step
    rw [hskip l hne hH]
    simp only [Bool.false_eq_true, if_false]
    have hsw : switchPhase ⟨.Vendors (some v) lastDev, vm, cm⟩ l
        = ⟨.Vendors (some v) lastDev, vm, cm⟩ := by
      unfold switchPhase
      rw [hC, hA]
      simp
    rw [hsw]
    unfold dispatch vendorsStep
    rw [hv, hd, hi]
  · intro st c lastCls l hst hne hH hC hA hc hs hp
    rcases st with ⟨ps, vm, cm⟩
    cases hst
    unfold step
    rw [hskip l hne hH]
    simp only [Bool.false_eq_true, if_false]
    have hsw : switchPhase ⟨.Classes (some c) lastCls, vm, cm⟩ l
        = ⟨.Classes (some c) lastCls, vm, cm⟩ := by
      unfold switchPhase
      rw [hC, hA]
      simp
    rw [hsw]
    unfold dispatch classesStep
    rw [hc, hs, hp]
  · intro st lastDev l hst hne hH hC hA hv
    rcases st with ⟨ps, vm, cm⟩
    cases hst
    refine ⟨"No parent vendor whilst parsing vendors, confirm file in correct order and not malformed", ?_⟩
    unfold step
    rw [hskip l hne hH]
    simp only [Bool.false_eq_true, if_false]
    have hsw : switchPhase ⟨.Vendors none lastDev, vm, cm⟩ l
        = ⟨.Vendors none lastDev, vm, cm⟩ := by
      unfold switchPhase
      rw [hC, hA]
      simp
    rw [hsw]
    unfold dispatch vendorsStep
    rw [hv]
  · intro st lastCls l hst hne hH hC hA hc
    rcases st with ⟨ps, vm, cm⟩
    cases hst
    refine ⟨"No parent class whilst parsing classes, confirm file in correct order and not malformed", ?_⟩
    unfold step
    rw [hskip l hne hH]
    simp only [Bool.false_eq_true, if_false]
    have hsw : switchPhase ⟨.Classes none lastCls, vm, cm⟩ l
        = ⟨.Classes none lastCls, vm, cm⟩ := by
      unfold switchPhase
      rw [hC, hA]
      simp
    rw [hsw]
    unfold dispatch classesStep
    rw [hc]

/-- Witness for C3: the unrecognized line "xyz" is skipped with a vendor
open, and aborts with none open. -/
theorem C3_witness :
    step (BuildState.mk
        (.Vendors (some (CgVendor.mk 0x1d6b (String.toList "Linux Foundation") [])) 0) [] [])
      (String.toList "xyz")
      = .ok (BuildState.mk
        (.Vendors (some (CgVendor.mk 0x1d6b (String.toList "Linux Foundation") [])) 0) [] []) ∧
    (∃ e, step (BuildState.mk (.Classes none 0) [] []) (String.toList "xyz") = .error e) :=
  ⟨C3_amended_skip_or_abort.1 _ _ 0 _ rfl (by simp) (by rfl) (by rfl) (by rfl)
      (by rfl) (by rfl) (by rfl),
   C3_amended_skip_or_abort.2.2.2 _ 0 _ rfl (by simp) (by rfl) (by rfl) (by rfl) (by rfl)⟩

/-- **C4**.  `Protocol.from_cid_scid_pid c s p` is present iff
`SubClass.from_cid_scid c s` is present and that subclass's protocol
sequence contains a protocol with id `p`; when present, the returned
protocol is such an element of that sequence. -/
theorem C4_protocol_descent (cat : Catalog) (c s p : Nat) :
    ((Protocol.from_cid_scid_pid cat c s p).isSome ↔
      ∃ sc, SubClass.from_cid_scid cat c s = some sc ∧
        ∃ pr ∈ sc.protocols, pr.id = p) ∧
    (∀ pr, Protocol.from_cid_scid_pid cat c s p = some pr →
      ∃ sc, SubClass.from_cid_scid cat c s = some sc ∧
        pr ∈ sc.protocols ∧ pr.id = p) := by
  constructor
  · unfold Protocol.from_cid_scid_pid
    cases hsc : SubClass.from_cid_scid cat c s with
    | none => simp
    | some sc =>
      rw [List.find?_isSome]
      constructor
      · rintro ⟨pr, hpr, hid⟩
        exact ⟨sc, rfl, pr, hpr, by simpa using hid⟩
      · rintro ⟨sc', hsc', pr, hpr, hid⟩
        cases hsc'
        exact ⟨pr, hpr, by simpa using hid⟩
  · intro pr h
    unfold Protocol.from_cid_scid_pid at h
    cases hsc : SubClass.from_cid_scid cat c s with
    | none => rw [hsc] at h; cases h
    | some sc =>
      rw [hsc] at h
      refine ⟨sc, rfl, List.mem_of_find?_eq_some h, ?_⟩
      simpa using List.find?_some h

/-- Witness for C4, at the spec-modelled catalog and ids `(0xff,0xff,0xff)`. -/
theorem C4_witness :
    ∃ sc, SubClass.from_cid_scid specCatalog 0xff 0xff = some sc ∧
      ∃ pr ∈ sc.protocols, pr.id = 0xff :=
  (C4_protocol_descent specCatalog 0xff 0xff 0xff).1.mp (by rfl)

/-- **C5**.  `Device.from_vid_pid vid pid` is present iff the vendor map has
an entry at key `vid` whose device sequence contains a device with id `pid`
(and the result is such a device); concretely, on the spec-modelled
registry, `(0x1d6b, 0x0003)` resolves to "3.0 root hub" and
`(0xffee, 0x0100)` to the last device entry
"Card Reader Controller RTS5101/RTS5111/RTS5116". -/
theorem C5_device_lookup :
    (∀ (cat : Catalog) (vid pid : Nat),
      (Device.from_vid_pid cat vid pid).isSome ↔
        ∃ v, mapGet cat.usb_ids vid = some v ∧ ∃ d ∈ v.devices, d.id = pid) ∧
    (∀ (cat : Catalog) (vid pid : Nat) (d : Device),
      Device.from_vid_pid cat vid pid = some d →
        ∃ v, mapGet cat.usb_ids vid = some v ∧ d ∈ v.devices ∧ d.id = pid) ∧
    (∃ d, Device.from_vid_pid specCatalog 0x1d6b 0x0003 = some d ∧
      d.name = String.toList "3.0 root hub") ∧
    (∃ d, Device.from_vid_pid specCatalog 0xffee 0x0100 = some d ∧
      d.name = String.toList "Card Reader Controller RTS5101/RTS5111/RTS5116") := by
  refine ⟨?_, ?_, ⟨_, rfl, rfl⟩, ⟨_, rfl, rfl⟩⟩
  · intro cat vid pid
    unfold Device.from_vid_pid Vendor.from_id
    cases hv : mapGet cat.usb_ids vid with
    | none => simp
    | some v =>
      rw [List.find?_isSome]
      constructor
      · rintro ⟨d, hd, hid⟩
        exact ⟨v, rfl, d, hd, by simpa using hid⟩
      · rintro ⟨v', hv', d, hd, hid⟩
        cases hv'
        exact ⟨d, hd, by simpa using hid⟩
  · intro cat vid pid d h
    unfold Device.from_vid_pid Vendor.from_id at h
    cases hv : mapGet cat.usb_ids vid with
    | none => rw [hv] at h; cases h
    | some v =>
      rw [hv] at h
      refine ⟨v, rfl, List.mem_of_find?_eq_some h, ?_⟩
      simpa using List.find?_some h

/-- Witness for C5's conditional parts, at the spec-modelled catalog. -/
theorem C5_witness :
    ∃ v, mapGet specCatalog.usb_ids 0x1d6b = some v ∧
      Device.mk 0x1d6b 0x0003 (String.toList "3.0 root hub") [] ∈ v.devices ∧
      (Device.mk 0x1d6b 0x0003 (String.toList "3.0 root hub") []).id = 0x0003 :=
  C5_device_lookup.2.1 specCatalog 0x1d6b 0x0003
    (Device.mk 0x1d6b 0x0003 (String.toList "3.0 root hub") []) (by rfl)

/-- **C6**.  For every device reachable from a successfully built catalog
(a member of the device sequence of some vendor stored in the vendor map),
the map lookup inside `Device::vendor` succeeds — the `unwrap` is
unreachable — and the vendor found has id equal to the device's `vendor_id`
and contains the device in its device sequence. -/
theorem C6_vendor_backref {lines : List (List Char)} {cat : Catalog}
    {k : Nat} {v : Vendor} {d : Device}
    (hb : build lines = .ok cat)
    (hv : mapGet cat.usb_ids k = some v) (hd : d ∈ v.devices) :
    ∃ v', Device.vendor cat d = some v' ∧ v'.id = d.vendor_id ∧ d ∈ v'.devices := by
  obtain ⟨hid, hdev⟩ := catalog_goodV hb (k, v) (mapGet_mem hv)
  have hdk : d.vendor_id = k := hdev d hd
  refine ⟨v, ?_, ?_, hd⟩
  · unfold Device.vendor
    rw [hdk]
    exact hv
  · rw [hid, hdk]

/-- Witness for C6: device `0x0003` of vendor `0x1d6b` in the spec-modelled
catalog. -/
theorem C6_witness :
    ∃ v', Device.vendor specCatalog
        (Device.mk 0x1d6b 0x0003 (String.toList "3.0 root hub") []) = some v' ∧
      v'.id = (Device.mk 0x1d6b 0x0003 (String.toList "3.0 root hub") []).vendor_id ∧
      (Device.mk 0x1d6b 0x0003 (String.toList "3.0 root hub") []) ∈ v'.devices :=
  @C6_vendor_backref specLines specCatalog 0x1d6b
    (Vendor.mk 0x1d6b (String.toList "Linux Foundation")
      [Device.mk 0x1d6b 0x0002 (String.toList "2.0 root hub") [],
       Device.mk 0x1d6b 0x0003 (String.toList "3.0 root hub") []])
    (Device.mk 0x1d6b 0x0003 (String.toList "3.0 root hub") [])
    (by rfl) (by rfl) (by simp)

/-- **C7**, counterexample.  The claim asserts that every id present as a
vendor in the registry's vendor section is found by `Vendor::from_id`.  But
a vendor that is still open at end of input is never flushed: the one-line
registry "1234  Acme" has 0x1234 in its vendor section, builds successfully,
and `from_id 0x1234` returns nothing. -/
theorem C7_counterexample :
    parser.vendor (String.toList "1234  Acme") = some (String.toList "Acme", 0x1234) ∧
    build [String.toList "1234  Acme"] = .ok ⟨[], []⟩ ∧
    Vendor.from_id ⟨[], []⟩ 0x1234 = none :=
  ⟨rfl, rfl, rfl⟩

/-- **C7**, amended.  The maps are keyed by each entity's own id: any
successful `Vendor.from_id`/`Class.from_id` lookup returns an entity whose
id field equals the queried key.  Presence holds for flushed entities: when
a class-section header follows the vendor lines (as in the shipped
registry), every id parsed from a vendor line is found by `Vendor.from_id`;
and when a type-section marker follows the class-section lines, every id
parsed from a class-header line is found by `Class.from_id` — each returning
an entity whose id equals the queried id.  An entity left open at end of
input (or dropped by a direct jump to the type section) is exempt, per the
counterexample. -/
theorem C7_amended_keyed_by_id :
    (∀ (lines : List (List Char)) (cat : Catalog), build lines = .ok cat →
      (∀ k v, mapGet cat.usb_ids k = some v → v.id = k) ∧
      (∀ k c, mapGet cat.usb_classes k = some c → c.id = k)) ∧
    (∀ (vs : List (List Char)) (c : List Char) (rest : List (List Char)) (cat : Catalog),
      (∀ l ∈ vs, startsWith ['C', ' '] l = false ∧ startsWith ['A', 'T', ' '] l = false) →
      startsWith ['C', ' '] c = true →
      build (vs ++ c :: rest) = .ok cat →
      ∀ l ∈ vs, ∀ nm i, parser.vendor l = some (nm, i) →
        ∃ v, Vendor.from_id cat i = some v ∧ v.id = i) ∧
    (∀ (vs : List (List Char)) (c : List Char) (cs : List (List Char))
        (atl : List Char) (rest : List (List Char)) (cat : Catalog),
      (∀ l ∈ vs, startsWith ['C', ' '] l = false ∧ startsWith ['A', 'T', ' '] l = false) →
      startsWith ['C', ' '] c = true →
      (∀ l ∈ cs, startsWith ['A', 'T', ' '] l = false) →
      startsWith ['A', 'T', ' '] atl = true →
      build (vs ++ c :: (cs ++ atl :: rest)) = .ok cat →
      ∀ l ∈ c :: cs, ∀ nm i, parser.cls l = some (nm, i) →
        ∃ cl, Class.from_id cat i = some cl ∧ cl.id = i) := by
  refine ⟨?_, ?_, ?_⟩
  · intro lines cat hb
    constructor
    · intro k v hv
      exact (catalog_goodV hb (k, v) (mapGet_mem hv)).1
    · intro k c hc
      exact (catalog_goodC hb (k, c) (mapGet_mem hc)).1
  · intro vs c rest cat hvs hc hb l hl nm i hvi
    obtain ⟨fin, hrun, hids, -⟩ := build_ok_decomp hb
    obtain ⟨mid, hmid, hrest⟩ := runLines_split hrun
    obtain ⟨⟨cur1, dev1, hps1⟩, -, hnew⟩ := runLines_vendors_pending rfl hvs hmid
    have hiv : i ∈ pendingVKeys mid := hnew l hl nm i hvi
    have hT : mid.ps.isTypes = false := by rw [hps1]; rfl
    simp only [runLines, hT, Bool.false_eq_true, if_false] at hrest
    cases hstep : step mid c with
    | error e => rw [hstep] at hrest; cases hrest
    | ok st2 =>
      rw [hstep] at hrest
      have h2 := step_vendors_to_classes hps1 hc hstep
      have hk3 : i ∈ fin.vmap.map Prod.fst :=
        vext_keys (runLines_maps hrest).1 (h2.1 i hiv)
      rw [← hids] at hk3
      obtain ⟨v, hv⟩ := mapGet_isSome_of_key hk3
      exact ⟨v, hv, (catalog_goodV hb (i, v) (mapGet_mem hv)).1⟩
  · intro vs c cs atl rest cat hvs hc hcs hat hb l hl nm i hvi
    obtain ⟨fin, hrun, -, hclsids⟩ := build_ok_decomp hb
    obtain ⟨mid, hmid, hrest⟩ := runLines_split hrun
    obtain ⟨⟨cur1, dev1, hps1⟩, -, -⟩ := runLines_vendors_pending rfl hvs hmid
    have hT1 : mid.ps.isTypes = false := by rw [hps1]; rfl
    simp only [runLines, hT1, Bool.false_eq_true, if_false] at hrest
    cases hstep : step mid c with
    | error e => rw [hstep] at hrest; cases hrest
    | ok st2 =>
      rw [hstep] at hrest
      have h2 := step_vendors_to_classes hps1 hc hstep
      obtain ⟨cur2, cid2, hps2⟩ := h2.2.1
      obtain ⟨mid2, hmid2, hrest2⟩ := runLines_split hrest
      obtain ⟨⟨cur3, cid3, hps3⟩, hmono3, hnew3⟩ :=
        runLines_classes_pending hps2 hcs hmid2
      have hiC : i ∈ pendingCKeys mid2 := by
        rcases List.mem_cons.1 hl with rfl | hl2
        · exact hmono3 i (h2.2.2.2 nm i hvi)
        · exact hnew3 l hl2 nm i hvi
      have hT3 : mid2.ps.isTypes = false := by rw [hps3]; rfl
      simp only [runLines, hT3, Bool.false_eq_true, if_false] at hrest2
      cases hstep2 : step mid2 atl with
      | error e => rw [hstep2] at hrest2; cases hrest2
      | ok st4 =>
        rw [hstep2] at hrest2
        have hk4 : i ∈ st4.cmap.map Prod.fst :=
          step_classes_to_types hps3 hat hstep2 i hiC
        have hk5 : i ∈ fin.cmap.map Prod.fst :=
          cext_keys (runLines_maps hrest2).2 hk4
        rw [← hclsids] at hk5
        obtain ⟨cl, hcl⟩ := mapGet_isSome_of_key hk5
        exact ⟨cl, hcl, (catalog_goodC hb (i, cl) (mapGet_mem hcl)).1⟩

/-- Witness for C7: vendor 0x1d6b of the spec-modelled registry, whose
vendor section is followed by a class-section header. -/
theorem C7_witness :
    ∃ v, Vendor.from_id specCatalog 0x1d6b = some v ∧ v.id = 0x1d6b :=
  C7_amended_keyed_by_id.2.1 (specLines.take 8)
    (String.toList "C 03  Human Interface Device")
    (specLines.drop 9) specCatalog
    (by decide) (by rfl) (by rfl)
    (String.toList "1d6b  Linux Foundation") (by decide)
    (String.toList "Linux Foundation") 0x1d6b (by rfl)

/-- **C8**.  On the first `"AT "` line met while not already in `Types`, the
loop flushes any open class (`typesSwitch`) and enters the terminal `Types`
state; and once the state is `Types`, no subsequent line ever changes the
parser state or adds an entity to either map. -/
theorem C8_types_terminal :
    (∀ (st : BuildState) (l : List Char), st.ps.isTypes = false →
      startsWith ['A', 'T', ' '] l = true → step st l = .ok (typesSwitch st)) ∧
    (∀ (st : BuildState) (ls : List (List Char)), st.ps = .Types →
      runLines st ls = .ok st) := by
  constructor
  · intro st l hT hAT
    obtain ⟨r, rfl⟩ := startsWith_eq_append hAT
    unfold step
    have hskip : ((['A', 'T', ' '] ++ r).isEmpty
        || startsWith ['#'] (['A', 'T', ' '] ++ r)) = false := by
      simp [startsWith]
    rw [hskip]
    simp only [Bool.false_eq_true, if_false]
    have hsw : switchPhase st (['A', 'T', ' '] ++ r) = typesSwitch st := by
      unfold switchPhase
      have hC : startsWith ['C', ' '] (['A', 'T', ' '] ++ r) = false := by
        simp [startsWith]
      rw [hC, hAT]
      simp [hT]
    rw [hsw]
    unfold dispatch
    rw [typesSwitch_ps]
  · intro st ls hst
    exact runLines_of_isTypes (by rw [hst]; rfl) ls

/-- Witness for C8: an `"AT "` line while a class is open, then arbitrary
lines in the `Types` state. -/
theorem C8_witness :
    step (BuildState.mk
        (.Classes (some (CgClass.mk 0x03 (String.toList "Human Interface Device") [])) 0) [] [])
      (String.toList "AT 0100  USB Streaming")
      = .ok (typesSwitch (BuildState.mk
        (.Classes (some (CgClass.mk 0x03 (String.toList "Human Interface Device") [])) 0) [] [])) ∧
    runLines (BuildState.mk .Types [] [])
      [String.toList "C 03  Human Interface Device", String.toList "1d6b  Linux Foundation"]
      = .ok (BuildState.mk .Types [] []) :=
  ⟨C8_types_terminal.1 _ _ (by rfl) (by rfl),
   C8_types_terminal.2 _ _ (by rfl)⟩

/-- **C10**.  Round trip at the public interface: for a device `d` reachable
from a successfully built catalog, `Device.from_vid_pid` applied to
`d.as_vid_pid()` returns `d` itself, provided device ids are unique within
that vendor's device sequence. -/
theorem C10_roundtrip {lines : List (List Char)} {cat : Catalog}
    {k : Nat} {v : Vendor} {d : Device}
    (hb : build lines = .ok cat)
    (hv : mapGet cat.usb_ids k = some v) (hd : d ∈ v.devices)
    (huniq : (v.devices.map Device.id).Nodup) :
    Device.from_vid_pid cat (Device.as_vid_pid d).1 (Device.as_vid_pid d).2 = some d := by
  obtain ⟨hid, hdev⟩ := catalog_goodV hb (k, v) (mapGet_mem hv)
  have hdk : d.vendor_id = k := hdev d hd
  unfold Device.from_vid_pid Vendor.from_id Device.as_vid_pid
  simp only
  rw [hdk, hv]
  exact find?_id_unique hd huniq

/-- Witness for C10: device `0x0100` of vendor `0xffee` in the spec-modelled
catalog. -/
theorem C10_witness :
    Device.from_vid_pid specCatalog
      (Device.as_vid_pid (Device.mk 0xffee 0x0100
        (String.toList "Card Reader Controller RTS5101/RTS5111/RTS5116") [])).1
      (Device.as_vid_pid (Device.mk 0xffee 0x0100
        (String.toList "Card Reader Controller RTS5101/RTS5111/RTS5116") [])).2
      = some (Device.mk 0xffee 0x0100
        (String.toList "Card Reader Controller RTS5101/RTS5111/RTS5116") []) :=
  @C10_roundtrip specLines specCatalog 0xffee
    (Vendor.mk 0xffee (String.toList "Card reader vendor")
      [Device.mk 0xffee 0x0100
        (String.toList "Card Reader Controller RTS5101/RTS5111/RTS5116") []])
    (Device.mk 0xffee 0x0100
      (String.toList "Card Reader Controller RTS5101/RTS5111/RTS5116") [])
    (by rfl) (by rfl) (by simp) (by simp)

/-- **C9**.  The two-stage build is deterministic: two successful builds
from identical registry text answer every query of the public API
identically. -/
theorem C9_deterministic {lines : List (List Char)} {cat1 cat2 : Catalog}
    (h1 : build lines = .ok cat1) (h2 : build lines = .ok cat2) :
    (∀ i, Vendor.from_id cat1 i = Vendor.from_id cat2 i) ∧
    (∀ i, Class.from_id cat1 i = Class.from_id cat2 i) ∧
    (∀ vid pid, Device.from_vid_pid cat1 vid pid = Device.from_vid_pid cat2 vid pid) ∧
    (∀ cid scid, SubClass.from_cid_scid cat1 cid scid = SubClass.from_cid_scid cat2 cid scid) ∧
    (∀ cid scid pid,
      Protocol.from_cid_scid_pid cat1 cid scid pid = Protocol.from_cid_scid_pid cat2 cid scid pid) := by
  rw [h1] at h2
  cases h2
  exact ⟨fun _ => rfl, fun _ => rfl, fun _ _ => rfl, fun _ _ => rfl,
    fun _ _ _ => rfl⟩

/-- Witness for C9: both builds run on the spec-modelled registry. -/
theorem C9_witness :
    Vendor.from_id specCatalog 0x1d6b = Vendor.from_id specCatalog 0x1d6b :=
  (@C9_deterministic specLines specCatalog specCatalog (by rfl) (by rfl)).1 0x1d6b

end UsbIds
